import Mathlib

/-!
Shallow embedding of the live music production studio core
(module src/music_ai_core/live_studio.py of the repository).

Modelling conventions:
* numpy float64 sample values are modelled as rational numbers (every
  float64 value is a rational); exact real-valued identities that the
  claims assert are settled over these rationals.
* numpy sin applied at the rational phases 2*pi*f*t is transcendental;
  it is modelled by an abstract function sw : Q -> Q, where sw x stands
  for the float value of sin(2*pi*x).  Claims that need facts about the
  sine use only the bound (forall x, abs (sw x) <= 1), which float sin
  satisfies.
* Python int(x) truncates toward zero: pyInt below.
* numpy calls that raise on their actual arguments (np.concatenate of an
  empty list, np.zeros of a negative size, np.max of an empty array,
  scalar division by zero) are modelled with Option / Except error
  values; a raised exception leaves the studio unchanged, which the
  Except embedding captures since no updated state is produced.
* a Python dict keyed by track name is modelled as an association list
  List (String x _) with dict assignment assocPut (replace first match,
  append when the key is fresh) and in-place update of an existing key
  assocMod (no-op when the key is absent, which is only reachable from
  states a real run never produces).
-/

/-- Python int() applied to a float: truncation toward zero. -/
def pyInt (q : ℚ) : ℤ :=
  if 0 ≤ q then ⌊q⌋ else ⌈q⌉

/-- numpy sign: -1, 0 or 1. -/
def npSign (q : ℚ) : ℚ :=
  if q < 0 then -1 else if q = 0 then 0 else 1

/-- numpy linspace(a, b, n): n evenly spaced points from a to b, endpoints
included; a single point is the start point. -/
def linspace (a b : ℚ) (n : ℕ) : List ℚ :=
  if n = 0 then []
  else if n = 1 then [a]
  else (List.range n).map (fun i : ℕ => a + (b - a) * (i : ℚ) / ((n : ℚ) - 1))

/-- numpy max over a possibly empty list: none models the ValueError that
np.max raises on a zero-size array. -/
def npMax : List ℚ → Option ℚ
  | [] => none
  | x :: xs => some (xs.foldl max x)

/-- The fixed per-synthesizer envelope parameters (self.parameters of
InstrumentSynthesizer). -/
structure SynthParams where
  attack : ℚ
  decay : ℚ
  sustain : ℚ
  release : ℚ
deriving DecidableEq, Repr

/-- Default parameter dict of InstrumentSynthesizer.__init__ (cutoff and
resonance are never read by the modelled operations). -/
def defaultParams : SynthParams :=
  { attack := 1/100, decay := 1/10, sustain := 7/10, release := 3/10 }

/-- InstrumentSynthesizer._envelope_adsr: ADSR envelope over a sample
count.  The Python method also receives the note duration but never
reads it. -/
def envelopeADSR (p : SynthParams) (sampleRate : ℕ) (length : ℕ) : List ℚ :=
  let attackLen : ℕ := (pyInt (p.attack * sampleRate)).toNat
  let decayLen : ℕ := (pyInt (p.decay * sampleRate)).toNat
  let releaseLen : ℕ := (pyInt (p.release * sampleRate)).toNat
  let sustainLen : ℤ := (length : ℤ) - attackLen - decayLen - releaseLen
  (linspace 0 1 (max 1 attackLen) ++
   linspace 1 p.sustain (max 1 decayLen) ++
   List.replicate (max 0 sustainLen).toNat p.sustain ++
   linspace p.sustain 0 (max 1 releaseLen)).take length

/-- One sample of the raw waveform at phase x = frequency * t, dispatching
on the waveform string; unknown names fall back to sine.  sw x models the
float value of sin(2*pi*x). -/
def waveSample (sw : ℚ → ℚ) (waveform : String) (x : ℚ) : ℚ :=
  if waveform = "sine" then sw x
  else if waveform = "square" then npSign (sw x)
  else if waveform = "sawtooth" then 2 * (x - (⌊x + 1/2⌋ : ℤ))
  else if waveform = "triangle" then 4 * |x - (⌊x + 3/4⌋ : ℤ) - 1/2| - 1
  else sw x

/-- InstrumentSynthesizer.synthesize_note: raw waveform over
int(sampleRate * duration) samples, shaped by the ADSR envelope and scaled
by the 0.3 headroom factor. -/
def synthesize_note (sw : ℚ → ℚ) (p : SynthParams) (sampleRate : ℕ)
    (frequency duration : ℚ) (waveform : String) : List ℚ :=
  let n : ℕ := (pyInt ((sampleRate : ℚ) * duration)).toNat
  let ts : List ℚ := (List.range n).map (fun i : ℕ => (i : ℚ) / (sampleRate : ℚ))
  let signal : List ℚ := ts.map (fun t => waveSample sw waveform (frequency * t))
  let env : List ℚ := envelopeADSR p sampleRate signal.length
  List.zipWith (fun s e => s * e * (3/10)) signal env

theorem linspace_length (a b : ℚ) (n : ℕ) : (linspace a b n).length = n := by
  unfold linspace
  split
  · simp [*]
  · split
    · simp [*]
    · simp

theorem envelopeADSR_inner_length (p : SynthParams) (sampleRate len : ℕ) :
    (envelopeADSR p sampleRate len).length = len := by
  unfold envelopeADSR
  simp only [List.length_take, List.length_append, linspace_length,
    List.length_replicate]
  omega

/-- Shared helper: the sample count of a synthesized note is exactly
int(sampleRate * duration), for every parameter set and waveform. -/
theorem synthesize_note_length (sw : ℚ → ℚ) (p : SynthParams)
    (sampleRate : ℕ) (frequency duration : ℚ) (waveform : String) :
    (synthesize_note sw p sampleRate frequency duration waveform).length =
      (pyInt ((sampleRate : ℚ) * duration)).toNat := by
  unfold synthesize_note
  simp [envelopeADSR_inner_length]

/-- C2: the spec claims round(duration * sampleRate) samples; the code
computes np.arange(int(sample_rate * duration)), and Python int()
truncates.  At sampleRate 44100, duration 17/1000 the product is 749.7:
truncation gives 749 samples while rounding gives 750. -/
theorem claim_C2_cex :
    ((synthesize_note (fun _ => 0) defaultParams 44100 440 (17/1000)
        "sine").length : ℤ) ≠ round ((44100 : ℚ) * (17/1000)) := by
  rw [synthesize_note_length]
  have h0 : (0 : ℚ) ≤ ((44100 : ℕ) : ℚ) * (17/1000) := by norm_num
  have hp : pyInt (((44100 : ℕ) : ℚ) * (17/1000)) = 749 := by
    rw [pyInt, if_pos h0, Int.floor_eq_iff] <;> norm_num
  have hr : round ((44100 : ℚ) * (17/1000)) = 750 := by
    rw [round_eq, Int.floor_eq_iff] <;> norm_num
  rw [hp, hr]
  norm_num

/-- C2 (amended): for all frequencies f > 0 and durations d > 0,
synthesizing one note produces exactly floor(sampleRate * d) samples
(Python int() truncation of the product, not rounding). -/
theorem claim_C2 (sw : ℚ → ℚ) (sampleRate : ℕ) (f d : ℚ)
    (waveform : String) (hf : 0 < f) (hd : 0 < d) :
    ((synthesize_note sw defaultParams sampleRate f d waveform).length : ℤ) =
      ⌊(sampleRate : ℚ) * d⌋ := by
  rw [synthesize_note_length]
  have h0 : (0 : ℚ) ≤ (sampleRate : ℚ) * d :=
    mul_nonneg (by positivity) (le_of_lt hd)
  rw [pyInt, if_pos h0, Int.toNat_of_nonneg (Int.floor_nonneg.mpr h0)]

theorem claim_C2_wit :
    (0 : ℚ) < 440 ∧ (0 : ℚ) < 1 ∧
    ((synthesize_note (fun _ => 0) defaultParams 44100 440 1
        "sine").length : ℤ) = ⌊(44100 : ℚ) * 1⌋ :=
  ⟨by norm_num, by norm_num,
    claim_C2 (fun _ => 0) 44100 440 1 "sine" (by norm_num) (by norm_num)⟩

/-- EffectsProcessor.add_reverb: one 50 ms pre-delayed copy scaled by the
decay factor, added on top of the input and truncated to its length. -/
def EffectsProcessor.add_reverb (sampleRate : ℕ) (audio : List ℚ)
    (decay : ℚ) : List ℚ :=
  let delaySamples : ℕ := (pyInt ((5/100 : ℚ) * sampleRate)).toNat
  List.zipWith (fun a d => a + decay * d) audio
    ((List.replicate delaySamples 0 ++ audio).take audio.length)

/-- EffectsProcessor.add_delay: single-tap delay; none models the
ValueError np.zeros raises when int(delay_time * sample_rate) is
negative. -/
def EffectsProcessor.add_delay (sampleRate : ℕ) (audio : List ℚ)
    (delay_time feedback : ℚ) : Option (List ℚ) :=
  let ds : ℤ := pyInt (delay_time * sampleRate)
  if ds < 0 then none
  else some (List.zipWith (fun a d => a + feedback * d) audio
    ((List.replicate ds.toNat 0 ++ audio).take audio.length))

/-- EffectsProcessor.add_compression: hard-knee compression; none models
the ZeroDivisionError the scalar 1/ratio raises when the ratio is 0. -/
def EffectsProcessor.add_compression (audio : List ℚ)
    (threshold ra : ℚ) : Option (List ℚ) :=
  if ra = 0 then none
  else some (audio.map (fun a => if threshold < |a| then a * (1 / ra) else a))

/-- EffectsProcessor.normalize: scale to the target peak; none models the
ValueError np.max raises on a zero-size array. -/
def EffectsProcessor.normalize (audio : List ℚ) (target : ℚ) :
    Option (List ℚ) :=
  (npMax (audio.map (fun v => |v|))).map (fun peak =>
    if 0 < peak then audio.map (fun v => v * (target / peak)) else audio)

theorem pyInt_nonneg {q : ℚ} (h : 0 ≤ q) : 0 ≤ pyInt q := by
  rw [pyInt, if_pos h]
  exact Int.floor_nonneg.mpr h

theorem add_reverb_length (sampleRate : ℕ) (audio : List ℚ) (decay : ℚ) :
    (EffectsProcessor.add_reverb sampleRate audio decay).length =
      audio.length := by
  simp [EffectsProcessor.add_reverb, List.length_zipWith, List.length_take]

theorem foldl_max_init_le (l : List ℚ) (a : ℚ) : a ≤ l.foldl max a := by
  induction l generalizing a with
  | nil => exact le_refl a
  | cons x xs ih => exact le_trans (le_max_left a x) (ih (max a x))

theorem foldl_max_le_of_mem {l : List ℚ} {v : ℚ} (h : v ∈ l) (a : ℚ) :
    v ≤ l.foldl max a := by
  induction l generalizing a with
  | nil => cases h
  | cons x xs ih =>
    rcases List.mem_cons.mp h with rfl | hx
    · exact le_trans (le_max_right a v) (foldl_max_init_le xs (max a v))
    · exact ih hx (max a x)

theorem foldl_max_scale {c : ℚ} (hc : 0 ≤ c) (l : List ℚ) (a : ℚ) :
    (l.map (fun v => v * c)).foldl max (a * c) = (l.foldl max a) * c := by
  induction l generalizing a with
  | nil => rfl
  | cons x xs ih =>
    simp only [List.map_cons, List.foldl_cons]
    rw [← max_mul_of_nonneg a x hc]
    exact ih (max a x)

theorem foldl_max_zeros {l : List ℚ} (h : ∀ v ∈ l, v = 0) :
    l.foldl max (0 : ℚ) = 0 := by
  induction l with
  | nil => rfl
  | cons x xs ih =>
    have hx := h x (List.mem_cons_self x xs)
    rw [List.foldl_cons, hx, max_self]
    exact ih (fun v hv => h v (List.mem_cons_of_mem x hv))

theorem normalize_length {x : List ℚ} {t : ℚ} {y : List ℚ}
    (h : EffectsProcessor.normalize x t = some y) : y.length = x.length := by
  rcases Option.map_eq_some'.mp h with ⟨p, _, rfl⟩
  split <;> simp

theorem normalize_some_of_ne_nil (x : List ℚ) (t : ℚ) (h : x ≠ []) :
    ∃ y, EffectsProcessor.normalize x t = some y := by
  cases x with
  | nil => exact absurd rfl h
  | cons a l =>
    exact ⟨if 0 < (l.map (fun v => |v|)).foldl max |a| then
        (a :: l).map (fun v => v * (t / (l.map (fun v => |v|)).foldl max |a|))
      else a :: l, rfl⟩

/-- C8: the claim quantifies over every choice of effect parameters, but
add_delay with delay_time = -1 computes np.zeros(int(-1 * 44100)), and
np.zeros raises ValueError on a negative size, so no output sequence is
returned at all (modelled as none). -/
theorem claim_C8_cex :
    EffectsProcessor.add_delay 44100 [(1 : ℚ)] (-1) (3/10) = none := by
  have hneg : pyInt ((-1 : ℚ) * ((44100 : ℕ) : ℚ)) < 0 := by
    have he : ((-1 : ℚ) * ((44100 : ℕ) : ℚ)) = ((-44100 : ℤ) : ℚ) := by
      push_cast
      norm_num
    rw [pyInt, he, if_neg (by push_cast; norm_num), Int.ceil_intCast]
    norm_num
  simp only [EffectsProcessor.add_delay]
  rw [if_pos hneg]

/-- C8 (amended): for every sample sequence and all effect parameters in
the operations' numeric domains (a nonnegative delay time, a nonzero
compression ratio; reverb is unrestricted), reverb, delay and compression
each return a sequence of the same length as their input, and the
composition reverb(delay(x)) preserves the length through both stages.
For a negative delay time the delay raises (np.zeros of negative size),
and for ratio 0 the compression raises (scalar division by zero), instead
of returning. -/
theorem claim_C8 (sampleRate : ℕ) (x : List ℚ)
    (decay delay_time feedback threshold ra : ℚ)
    (hdt : 0 ≤ delay_time) (hra : ra ≠ 0) :
    (EffectsProcessor.add_reverb sampleRate x decay).length = x.length ∧
    (∃ y, EffectsProcessor.add_delay sampleRate x delay_time feedback = some y ∧
      y.length = x.length ∧
      (EffectsProcessor.add_reverb sampleRate y decay).length = x.length) ∧
    (∃ z, EffectsProcessor.add_compression x threshold ra = some z ∧
      z.length = x.length) := by
  refine ⟨add_reverb_length _ _ _, ⟨?_, ?_, ?_, ?_⟩, ⟨?_, ?_, ?_⟩⟩
  · exact List.zipWith (fun a d => a + feedback * d) x
      ((List.replicate (pyInt (delay_time * sampleRate)).toNat 0 ++ x).take
        x.length)
  · have h0 : 0 ≤ pyInt (delay_time * sampleRate) :=
      pyInt_nonneg (mul_nonneg hdt (by positivity))
    rw [EffectsProcessor.add_delay, if_neg (by omega)]
  · simp [List.length_zipWith, List.length_take]
  · rw [add_reverb_length]
    simp [List.length_zipWith, List.length_take]
  · exact x.map (fun a => if threshold < |a| then a * (1 / ra) else a)
  · rw [EffectsProcessor.add_compression, if_neg hra]
  · simp

theorem claim_C8_wit :
    (0 : ℚ) ≤ 1/4 ∧ (4 : ℚ) ≠ 0 ∧
    ((EffectsProcessor.add_reverb 44100 [(1 : ℚ), 2] (1/2)).length =
        [(1 : ℚ), 2].length ∧
      (∃ y, EffectsProcessor.add_delay 44100 [(1 : ℚ), 2] (1/4) (3/10) =
          some y ∧ y.length = [(1 : ℚ), 2].length ∧
        (EffectsProcessor.add_reverb 44100 y (1/2)).length =
          [(1 : ℚ), 2].length) ∧
      (∃ z, EffectsProcessor.add_compression [(1 : ℚ), 2] (3/5) 4 = some z ∧
        z.length = [(1 : ℚ), 2].length)) :=
  ⟨by norm_num, by norm_num,
    claim_C8 44100 [(1 : ℚ), 2] (1/2) (1/4) (3/10) (3/5) 4
      (by norm_num) (by norm_num)⟩

/-- C7: the claim covers every all-zero input, but on the empty sequence
the code first evaluates np.max(np.abs(audio)), and np.max raises a
ValueError on a zero-size array (modelled as none), so the empty input is
not returned unchanged. -/
theorem claim_C7_cex :
    EffectsProcessor.normalize [] (9/10) ≠ some ([] : List ℚ) := by
  rw [show EffectsProcessor.normalize [] (9/10 : ℚ) = none from rfl]
  simp

/-- C7 (amended): for a nonnegative target, normalize on any input with at
least one nonzero sample returns a sequence whose peak absolute value is
exactly the target, and on a nonempty all-zero input returns the input
unchanged; on the empty input the peak reduction raises instead of
returning. -/
theorem claim_C7 (x : List ℚ) (target : ℚ) (ht : 0 ≤ target) :
    ((∃ v ∈ x, v ≠ 0) →
      ∃ y, EffectsProcessor.normalize x target = some y ∧
        npMax (y.map (fun v => |v|)) = some target) ∧
    (x ≠ [] → (∀ v ∈ x, v = 0) →
      EffectsProcessor.normalize x target = some x) := by
  constructor
  · rintro ⟨v₀, hmem, hv₀⟩
    cases x with
    | nil => cases hmem
    | cons a l =>
      set P : ℚ := (l.map (fun v => |v|)).foldl max |a| with hPdef
      have hnp : npMax ((a :: l).map (fun v => |v|)) = some P := rfl
      have hvP : |v₀| ≤ P := by
        rcases List.mem_cons.mp hmem with rfl | hmem2
        · exact foldl_max_init_le _ _
        · exact foldl_max_le_of_mem (List.mem_map_of_mem _ hmem2) _
      have hPpos : (0 : ℚ) < P := lt_of_lt_of_le (abs_pos.mpr hv₀) hvP
      have hc : (0 : ℚ) ≤ target / P := div_nonneg ht hPpos.le
      refine ⟨(a :: l).map (fun v => v * (target / P)), ?_, ?_⟩
      · rw [EffectsProcessor.normalize, hnp, Option.map_some', if_pos hPpos]
      · have hmap :
            ((a :: l).map (fun v => v * (target / P))).map (fun v => |v|) =
              ((a :: l).map (fun v => |v|)).map
                (fun v => v * (target / P)) := by
          simp only [List.map_map]
          exact List.map_congr_left (fun v _ => by
            simp [Function.comp, abs_mul, abs_of_nonneg hc])
        rw [hmap]
        show some ((((l.map (fun v => |v|)).map
            (fun v => v * (target / P))).foldl max (|a| * (target / P)))) =
          some target
        rw [foldl_max_scale hc]
        rw [mul_comm, div_mul_cancel₀ _ (ne_of_gt hPpos)]
  · intro hne hz
    cases x with
    | nil => exact absurd rfl hne
    | cons a l =>
      have ha : a = 0 := hz a (List.mem_cons_self a l)
      have hP : (l.map (fun v => |v|)).foldl max |a| = 0 := by
        rw [ha, abs_zero]
        exact foldl_max_zeros (fun v hv => by
          rcases List.mem_map.mp hv with ⟨w, hw, rfl⟩
          rw [hz w (List.mem_cons_of_mem a hw), abs_zero])
      have hnp : npMax ((a :: l).map (fun v => |v|)) =
          some ((l.map (fun v => |v|)).foldl max |a|) := rfl
      rw [EffectsProcessor.normalize, hnp, Option.map_some', hP,
        if_neg (lt_irrefl 0)]

theorem claim_C7_wit :
    (∃ y, EffectsProcessor.normalize [(1 : ℚ)/2, 0] (9/10) = some y ∧
      npMax (y.map (fun v => |v|)) = some (9/10)) ∧
    EffectsProcessor.normalize [(0 : ℚ)] (9/10) = some [(0 : ℚ)] :=
  ⟨(claim_C7 [(1 : ℚ)/2, 0] (9/10) (by norm_num)).1
      ⟨1/2, by simp, by norm_num⟩,
    (claim_C7 [(0 : ℚ)] (9/10) (by norm_num)).2 (by simp)
      (by intro v hv; simpa using hv)⟩

/-- AudioBuffer.read pops samples one at a time from the front of the
deque; this models the popleft loop (first component: samples read in
order, second: remaining buffer).  The empty-buffer branch is unreachable
under the length guard of read. -/
def popFront : List ℚ → ℕ → List ℚ × List ℚ
  | b, 0 => ([], b)
  | [], _ + 1 => ([], [])
  | x :: xs, n + 1 =>
    let r := popFront xs n
    (x :: r.1, r.2)

/-- AudioBuffer.read: zero-fill of exactly frames samples when fewer are
buffered (leaving the deque untouched), otherwise a FIFO drain of exactly
frames samples.  The buffer deque is the list, oldest sample first. -/
def AudioBuffer.read (buf : List ℚ) (frames : ℕ) : List ℚ × List ℚ :=
  if buf.length < frames then (List.replicate frames 0, buf)
  else popFront buf frames

theorem popFront_eq_take_drop :
    ∀ (b : List ℚ) (n : ℕ), n ≤ b.length →
      popFront b n = (b.take n, b.drop n) := by
  intro b
  induction b with
  | nil =>
    intro n h
    have : n = 0 := by simpa using h
    subst this
    rfl
  | cons x xs ih =>
    intro n h
    cases n with
    | zero => rfl
    | succ m =>
      have hm : m ≤ xs.length := by simpa using h
      simp only [popFront, ih m hm, List.take_succ_cons, List.drop_succ_cons]

/-- C3: on any buffer state, a read of more frames than are buffered
returns exactly that many zeros and leaves the buffer contents unchanged;
otherwise read removes and returns exactly the requested number of oldest
samples in FIFO order. -/
theorem claim_C3 (buf : List ℚ) (frames : ℕ) :
    (buf.length < frames →
      AudioBuffer.read buf frames = (List.replicate frames 0, buf)) ∧
    (frames ≤ buf.length →
      AudioBuffer.read buf frames = (buf.take frames, buf.drop frames)) := by
  constructor
  · intro h
    rw [AudioBuffer.read, if_pos h]
  · intro h
    rw [AudioBuffer.read, if_neg (by omega), popFront_eq_take_drop _ _ h]

theorem claim_C3_wit :
    ([(1 : ℚ), 2, 3].length < 5 ∧
      AudioBuffer.read [(1 : ℚ), 2, 3] 5 =
        (List.replicate 5 0, [(1 : ℚ), 2, 3])) ∧
    (2 ≤ [(1 : ℚ), 2, 3].length ∧
      AudioBuffer.read [(1 : ℚ), 2, 3] 2 =
        ([(1 : ℚ), 2, 3].take 2, [(1 : ℚ), 2, 3].drop 2)) :=
  ⟨⟨by simp, (claim_C3 [(1 : ℚ), 2, 3] 5).1 (by simp)⟩,
    ⟨by simp, (claim_C3 [(1 : ℚ), 2, 3] 2).2 (by simp)⟩⟩

/-- Effect keyword arguments of LiveMusicStudio.apply_effect: each field
is some value when the caller supplied that keyword.  ratioParam stands
for the ratio keyword. -/
structure EffectParams where
  decay : Option ℚ
  delay_time : Option ℚ
  feedback : Option ℚ
  threshold : Option ℚ
  ratioParam : Option ℚ
deriving DecidableEq, Repr

/-- No keyword arguments supplied. -/
def EffectParams.none : EffectParams :=
  { decay := Option.none, delay_time := Option.none,
    feedback := Option.none, threshold := Option.none,
    ratioParam := Option.none }

/-- Per-track entry of LiveMusicStudio.track_parameters. -/
structure TrackParams where
  muted : Bool
  volume : ℚ
  pan : ℚ
  effects : List (String × EffectParams)
deriving DecidableEq, Repr

/-- LiveMusicStudio state: the tracks dict (name to samples) and the
track_parameters dict, plus the fields the modelled operations read.
The per-track AudioBuffers, tempo, time signature and the is_recording
and is_playing flags are never read or written by the modelled
operations and are omitted. -/
structure Studio where
  sampleRate : ℕ
  numTracks : ℕ
  tracks : List (String × List ℚ)
  trackParams : List (String × TrackParams)
  masterVolume : ℚ
deriving DecidableEq, Repr

/-- Errors the studio operations can raise: ValueError for a missing
track, the np.concatenate ValueError on an empty segment list, the
np.zeros ValueError on a negative size, and the scalar ZeroDivisionError
of 1/ratio. -/
inductive StudioError where
  | notFound (name : String)
  | emptyConcat
  | negativeSize
  | divByZero
deriving DecidableEq, Repr

def assocFind {β : Type} (k : String) : List (String × β) → Option β
  | [] => Option.none
  | (k2, v) :: rest => if k2 = k then some v else assocFind k rest

def assocPut {β : Type} (k : String) (v : β) :
    List (String × β) → List (String × β)
  | [] => [(k, v)]
  | (k2, v2) :: rest =>
    if k2 = k then (k, v) :: rest else (k2, v2) :: assocPut k v rest

def assocMod {β : Type} (k : String) (f : β → β) :
    List (String × β) → List (String × β)
  | [] => []
  | (k2, v2) :: rest =>
    if k2 = k then (k2, f v2) :: rest else (k2, v2) :: assocMod k f rest

theorem assocFind_put_self {β : Type} (k : String) (v : β)
    (l : List (String × β)) : assocFind k (assocPut k v l) = some v := by
  induction l with
  | nil => simp [assocPut, assocFind]
  | cons p rest ih =>
    obtain ⟨k2, v2⟩ := p
    by_cases h : k2 = k
    · simp [assocPut, assocFind, h]
    · simp [assocPut, assocFind, h, ih]

theorem assocFind_put_ne {β : Type} {k k2 : String} (h : k2 ≠ k) (v : β)
    (l : List (String × β)) :
    assocFind k2 (assocPut k v l) = assocFind k2 l := by
  induction l with
  | nil => simp [assocPut, assocFind, Ne.symm h]
  | cons p rest ih =>
    obtain ⟨k3, v3⟩ := p
    by_cases h3 : k3 = k
    · subst h3
      simp [assocPut, assocFind, Ne.symm h]
    · simp only [assocPut, if_neg h3]
      by_cases h2 : k3 = k2
      · simp [assocFind, h2]
      · simp [assocFind, h2, ih]

theorem assocFind_mod_self {β : Type} (k : String) (f : β → β)
    (l : List (String × β)) :
    assocFind k (assocMod k f l) = (assocFind k l).map f := by
  induction l with
  | nil => simp [assocMod, assocFind]
  | cons p rest ih =>
    obtain ⟨k2, v2⟩ := p
    by_cases h : k2 = k
    · simp [assocMod, assocFind, h]
    · simp [assocMod, assocFind, h, ih]

theorem assocMod_of_absent {β : Type} {k : String} (f : β → β)
    {l : List (String × β)} (h : assocFind k l = Option.none) :
    assocMod k f l = l := by
  induction l with
  | nil => rfl
  | cons p rest ih =>
    obtain ⟨k2, v2⟩ := p
    by_cases h2 : k2 = k
    · rw [assocFind, if_pos h2] at h
      cases h
    · rw [assocFind, if_neg h2] at h
      rw [assocMod, if_neg h2, ih h]

/-- Default TrackParams of _initialize_tracks: unmuted, volume 1.0,
pan 0.0, empty effects dict (the name field of the Python parameter dict
duplicates the key and is dropped). -/
def initTrackParams : TrackParams :=
  { muted := false, volume := 1, pan := 0, effects := [] }

/-- LiveMusicStudio.__init__ followed by _initialize_tracks: tracks
track_0 .. track_(n-1), each with an empty sample sequence and default
parameters; master volume 1.0. -/
def initStudio (sampleRate numTracks : ℕ) : Studio :=
  { sampleRate := sampleRate, numTracks := numTracks,
    tracks := (List.range numTracks).map
      (fun i => ("track_" ++ toString i, ([] : List ℚ))),
    trackParams := (List.range numTracks).map
      (fun i => ("track_" ++ toString i, initTrackParams)),
    masterVolume := 1 }

/-- LiveMusicStudio.record_track: replace a track's samples outright;
ValueError (notFound) when the name is not a key of the tracks dict. -/
def Studio.record_track (s : Studio) (name : String) (audio : List ℚ) :
    Except StudioError Studio :=
  match assocFind name s.tracks with
  | Option.none => .error (.notFound name)
  | some _ => .ok { s with tracks := assocPut name audio s.tracks }

/-- LiveMusicStudio.generate_track: synthesize one segment per
(frequency, duration) note, concatenate, store via record_track.
np.concatenate raises on an empty segment list (emptyConcat), before the
track name is ever checked. -/
def Studio.generate_track (sw : ℚ → ℚ) (s : Studio) (name : String)
    (notes : List (ℚ × ℚ)) (waveform : String) : Except StudioError Studio :=
  let segments := notes.map (fun nd =>
    synthesize_note sw defaultParams s.sampleRate nd.1 nd.2 waveform)
  match segments with
  | [] => .error .emptyConcat
  | _ => s.record_track name segments.join

/-- LiveMusicStudio.apply_effect: dispatch on the effect kind string with
the source's default parameters (reverb decay 0.5, delay time 0.25 with
the delay's own feedback default 0.3 - the caller's feedback kwarg is
never forwarded - and compression threshold 0.6 with the compression's
own ratio default 4.0); unknown kinds leave the audio unchanged; the full
kwargs record is stored under the kind in the track's effects dict. -/
def Studio.apply_effect (s : Studio) (name kind : String)
    (params : EffectParams) : Except StudioError Studio :=
  match assocFind name s.tracks with
  | Option.none => .error (.notFound name)
  | some audio =>
    let res : Except StudioError (List ℚ) :=
      if kind = "reverb" then
        .ok (EffectsProcessor.add_reverb s.sampleRate audio
          (params.decay.getD (1/2)))
      else if kind = "delay" then
        match EffectsProcessor.add_delay s.sampleRate audio
            (params.delay_time.getD (1/4)) (3/10) with
        | Option.none => .error .negativeSize
        | some a => .ok a
      else if kind = "compression" then
        match EffectsProcessor.add_compression audio
            (params.threshold.getD (3/5)) 4 with
        | Option.none => .error .divByZero
        | some a => .ok a
      else .ok audio
    match res with
    | .error e => .error e
    | .ok audio2 =>
      .ok { s with
        tracks := assocPut name audio2 s.tracks,
        trackParams := assocMod name
          (fun p => { p with effects := assocPut kind params p.effects })
          s.trackParams }

/-- LiveMusicStudio.set_track_volume: clamp to [0, 1], multiply the
stored samples destructively, record the clamped volume. -/
def Studio.set_track_volume (s : Studio) (name : String) (volume : ℚ) :
    Except StudioError Studio :=
  match assocFind name s.tracks with
  | Option.none => .error (.notFound name)
  | some audio =>
    let v := max 0 (min 1 volume)
    .ok { s with
      tracks := assocPut name (audio.map (fun a => a * v)) s.tracks,
      trackParams := assocMod name (fun p => { p with volume := v })
        s.trackParams }

/-- LiveMusicStudio.set_track_pan: clamp to [-1, 1] and store; the
samples are untouched. -/
def Studio.set_track_pan (s : Studio) (name : String) (pan : ℚ) :
    Except StudioError Studio :=
  match assocFind name s.tracks with
  | Option.none => .error (.notFound name)
  | some _ =>
    let pv := max (-1) (min 1 pan)
    .ok { s with
      trackParams := assocMod name (fun p => { p with pan := pv })
        s.trackParams }

/-- LiveMusicStudio.mute_track: set the flag when the name is a key of
track_parameters, silently do nothing otherwise (assocMod is the
identity on an absent key); never raises. -/
def Studio.mute_track (s : Studio) (name : String) : Studio :=
  { s with trackParams :=
      assocMod name (fun p => { p with muted := true }) s.trackParams }

/-- LiveMusicStudio.unmute_track: clear the flag; same no-op behavior on
an unknown name; never raises. -/
def Studio.unmute_track (s : Studio) (name : String) : Studio :=
  { s with trackParams :=
      assocMod name (fun p => { p with muted := false }) s.trackParams }

/-- np.pad(audio, (0, n - len(audio))): trailing zeros up to n. -/
def padTo (audio : List ℚ) (n : ℕ) : List ℚ :=
  audio ++ List.replicate (n - audio.length) 0

/-- max((len(audio) for audio in tracks.values()), default=0). -/
def Studio.maxLen (s : Studio) : ℕ :=
  s.tracks.foldl (fun m p => max m p.2.length) 0

/-- track_parameters[name]["muted"]; the absent-key branch is unreachable
in states a real run produces (both dicts always hold the same keys). -/
def Studio.getMuted (s : Studio) (name : String) : Bool :=
  match assocFind name s.trackParams with
  | some p => p.muted
  | Option.none => false

/-- The pre-normalization mono sum of LiveMusicStudio.mix: every unmuted
track is padded with trailing zeros to maxLen and accumulated. -/
def Studio.monoMix (s : Studio) : List ℚ :=
  s.tracks.foldl
    (fun acc p =>
      if s.getMuted p.1 then acc
      else List.zipWith (fun a b => a + b) acc (padTo p.2 s.maxLen))
    (List.replicate s.maxLen 0)

/-- LiveMusicStudio.mix: empty output when no track has samples,
otherwise normalize the mono sum to peak 0.9, apply the master volume and
duplicate to two identical channels.  The normalize-failure branch is
unreachable because the mono sum is nonempty when maxLen > 0. -/
def Studio.mix (s : Studio) : List (List ℚ) :=
  if s.maxLen = 0 then []
  else
    match EffectsProcessor.normalize s.monoMix (9/10) with
    | Option.none => []
    | some m =>
      let master := m.map (fun v => v * s.masterVolume)
      [master, master]

/-- Concrete studio used by witnesses: track_0 with samples all 1.0,
track_1 muted. -/
def sampleStudio : Studio :=
  { sampleRate := 44100, numTracks := 2,
    tracks := [("track_0", [1, 1]), ("track_1", [2, 0, 2])],
    trackParams := [("track_0", initTrackParams),
      ("track_1", { muted := true, volume := 1, pan := 0, effects := [] })],
    masterVolume := 1 }

/-- C10: generate_track with an empty note sequence builds an empty
segment list and np.concatenate raises on it (emptyConcat), before
record_track can run, so nothing is stored and generate_track is not
total over its public input domain. -/
theorem claim_C10 (sw : ℚ → ℚ) (s : Studio) (name waveform : String)
    (h : (assocFind name s.tracks).isSome = true) :
    Studio.generate_track sw s name [] waveform =
      Except.error StudioError.emptyConcat := rfl

theorem claim_C10_wit :
    (assocFind "track_0" (initStudio 44100 8).tracks).isSome = true ∧
    Studio.generate_track (fun _ => 0) (initStudio 44100 8) "track_0" []
      "sine" = Except.error StudioError.emptyConcat :=
  ⟨rfl, claim_C10 (fun _ => 0) (initStudio 44100 8) "track_0" "sine" rfl⟩

/-- Shared helper: the successful branch of set_track_volume, fully
explicit. -/
theorem set_track_volume_ok {s : Studio} {name : String} {xs : List ℚ}
    (h : assocFind name s.tracks = some xs) (v : ℚ) :
    s.set_track_volume name v = Except.ok
      { s with
        tracks := assocPut name
          (xs.map (fun a => a * max 0 (min 1 v))) s.tracks,
        trackParams := assocMod name
          (fun p => { p with volume := max 0 (min 1 v) }) s.trackParams } := by
  unfold Studio.set_track_volume
  simp only [h]

/-- C4: set_track_volume clamps to [0, 1] before storing and multiplies
the stored samples by the clamped value destructively, so two successive
calls with 0.5 on an all-ones track leave every sample at 0.25. -/
theorem claim_C4 :
    (∀ (s : Studio) (name : String) (v : ℚ) (xs : List ℚ),
      assocFind name s.tracks = some xs →
      ∃ s2, s.set_track_volume name v = Except.ok s2 ∧
        assocFind name s2.tracks =
          some (xs.map (fun a => a * max 0 (min 1 v))) ∧
        (∀ p, assocFind name s.trackParams = some p →
          assocFind name s2.trackParams =
            some { p with volume := max 0 (min 1 v) })) ∧
    (∀ (s : Studio) (name : String) (xs : List ℚ),
      assocFind name s.tracks = some xs →
      (∀ a ∈ xs, a = 1) →
      ∃ s2, (s.set_track_volume name (1/2)).bind
          (fun s1 => s1.set_track_volume name (1/2)) = Except.ok s2 ∧
        ∃ ys, assocFind name s2.tracks = some ys ∧
          ys.length = xs.length ∧ ∀ a ∈ ys, a = 1/4) := by
  have hclamp : max 0 (min 1 ((1 : ℚ)/2)) = 1/2 := by norm_num
  constructor
  · intro s name v xs h
    refine ⟨_, set_track_volume_ok h v, ?_, ?_⟩
    · exact assocFind_put_self name _ s.tracks
    · intro p hp
      rw [assocFind_mod_self, hp, Option.map_some']
  · intro s name xs h hones
    have h1 := set_track_volume_ok h (1/2)
    have hfind1 : assocFind name
        ({ s with
            tracks := assocPut name
              (xs.map (fun a => a * max 0 (min 1 ((1 : ℚ)/2)))) s.tracks,
            trackParams := assocMod name
              (fun p => { p with volume := max 0 (min 1 ((1 : ℚ)/2)) })
              s.trackParams } : Studio).tracks =
          some (xs.map (fun a => a * max 0 (min 1 ((1 : ℚ)/2)))) :=
      assocFind_put_self name _ s.tracks
    have h2 := set_track_volume_ok hfind1 (1/2)
    refine ⟨_, Eq.trans ?_ h2, ?_⟩
    · rw [h1]
      rfl
    refine ⟨_, assocFind_put_self name _ _, ?_, ?_⟩
    · simp
    · intro a ha
      rcases List.mem_map.mp ha with ⟨b, hb, rfl⟩
      rcases List.mem_map.mp hb with ⟨c, hc, rfl⟩
      rw [hones c hc, hclamp]
      norm_num

theorem claim_C4_wit :
    (∃ s2, sampleStudio.set_track_volume "track_0" 2 = Except.ok s2 ∧
      assocFind "track_0" s2.tracks =
        some ([(1 : ℚ), 1].map (fun a => a * max 0 (min 1 (2 : ℚ)))) ∧
      (∀ p, assocFind "track_0" sampleStudio.trackParams = some p →
        assocFind "track_0" s2.trackParams =
          some { p with volume := max 0 (min 1 (2 : ℚ)) })) ∧
    (∃ s2, (sampleStudio.set_track_volume "track_0" (1/2)).bind
        (fun s1 => s1.set_track_volume "track_0" (1/2)) = Except.ok s2 ∧
      ∃ ys, assocFind "track_0" s2.tracks = some ys ∧
        ys.length = [(1 : ℚ), 1].length ∧ ∀ a ∈ ys, a = 1/4) :=
  ⟨claim_C4.1 sampleStudio "track_0" 2 [1, 1] rfl,
    claim_C4.2 sampleStudio "track_0" [1, 1] rfl
      (by intro a ha; rcases List.mem_cons.mp ha with rfl | ha2 <;>
        simpa using ha2)⟩

/-- Shared helper: the successful delay branch of apply_effect, fully
explicit.  The studio-level dispatch passes only the delay_time kwarg to
the Effects Chain; the feedback mix gain is always the add_delay default
0.3. -/
theorem apply_effect_delay_ok {s : Studio} {name : String} {xs : List ℚ}
    (h : assocFind name s.tracks = some xs) (params : EffectParams)
    (hdt : 0 ≤ params.delay_time.getD (1/4)) :
    s.apply_effect name "delay" params = Except.ok
      { s with
        tracks := assocPut name
          (List.zipWith (fun a d => a + (3/10) * d) xs
            ((List.replicate
                (pyInt (params.delay_time.getD (1/4) * s.sampleRate)).toNat 0
              ++ xs).take xs.length)) s.tracks,
        trackParams := assocMod name
          (fun p => { p with effects := assocPut "delay" params p.effects })
          s.trackParams } := by
  have hds : EffectsProcessor.add_delay s.sampleRate xs
      (params.delay_time.getD (1/4)) (3/10) =
      some (List.zipWith (fun a d => a + (3/10) * d) xs
        ((List.replicate
            (pyInt (params.delay_time.getD (1/4) * s.sampleRate)).toNat 0
          ++ xs).take xs.length)) := by
    rw [EffectsProcessor.add_delay,
      if_neg (not_lt.mpr (pyInt_nonneg (mul_nonneg hdt (by positivity))))]
  have e1 : (("delay" : String) = "reverb") = False := by simp
  have e2 : (("delay" : String) = "delay") = True := by simp
  unfold Studio.apply_effect
  simp only [h, e1, e2, if_false, if_true, hds]

/-- Delay kwargs with caller-supplied delay_time and feedback values. -/
def delayParams (t fb : ℚ) : EffectParams :=
  { EffectParams.none with delay_time := some t, feedback := some fb }

/-- C9: for an existing track and any two caller-supplied feedback
values, applying the delay effect produces identical track samples (the
dispatch never forwards the feedback kwarg to add_delay, which therefore
always runs with its default 0.3), while the caller's feedback value is
still recorded in the track's effects dict. -/
theorem claim_C9 (s : Studio) (name : String) (t f1 f2 : ℚ)
    (xs : List ℚ) (h : assocFind name s.tracks = some xs) (ht : 0 ≤ t) :
    ∃ s1 s2,
      s.apply_effect name "delay" (delayParams t f1) = Except.ok s1 ∧
      s.apply_effect name "delay" (delayParams t f2) = Except.ok s2 ∧
      s1.tracks = s2.tracks ∧
      (∀ p, assocFind name s.trackParams = some p →
        assocFind name s1.trackParams = some
          { p with effects :=
              assocPut "delay" (delayParams t f1) p.effects }) := by
  have h1 := apply_effect_delay_ok h (delayParams t f1)
    (by simpa [delayParams, EffectParams.none] using ht)
  have h2 := apply_effect_delay_ok h (delayParams t f2)
    (by simpa [delayParams, EffectParams.none] using ht)
  refine ⟨_, _, h1, h2, ?_, ?_⟩
  · show assocPut name _ s.tracks = assocPut name _ s.tracks
    rfl
  · intro p hp
    show assocFind name (assocMod name _ s.trackParams) = _
    rw [assocFind_mod_self, hp, Option.map_some']

theorem claim_C9_wit :
    ∃ s1 s2,
      sampleStudio.apply_effect "track_0" "delay" (delayParams (1/4) 0) =
        Except.ok s1 ∧
      sampleStudio.apply_effect "track_0" "delay" (delayParams (1/4) 1) =
        Except.ok s2 ∧
      s1.tracks = s2.tracks ∧
      (∀ p, assocFind "track_0" sampleStudio.trackParams = some p →
        assocFind "track_0" s1.trackParams = some
          { p with effects :=
              assocPut "delay" (delayParams (1/4) 0) p.effects }) :=
  claim_C9 sampleStudio "track_0" (1/4) 0 1 [1, 1] rfl (by norm_num)

theorem record_track_none {s : Studio} {n : String} {a : List ℚ}
    (hf : assocFind n s.tracks = Option.none) :
    s.record_track n a = Except.error (.notFound n) := by
  unfold Studio.record_track
  simp only [hf]

theorem record_track_some {s : Studio} {n : String} (a : List ℚ)
    {xs : List ℚ} (hf : assocFind n s.tracks = some xs) :
    s.record_track n a =
      Except.ok { s with tracks := assocPut n a s.tracks } := by
  unfold Studio.record_track
  simp only [hf]

theorem generate_track_cons (sw : ℚ → ℚ) (s : Studio) (n w : String)
    (n0 : ℚ × ℚ) (rest : List (ℚ × ℚ)) :
    Studio.generate_track sw s n (n0 :: rest) w =
      s.record_track n
        (((n0 :: rest).map (fun nd =>
          synthesize_note sw defaultParams s.sampleRate nd.1 nd.2 w)).join) := by
  unfold Studio.generate_track
  simp only [List.map_cons]

theorem apply_effect_none {s : Studio} {n kind : String}
    {params : EffectParams} (hf : assocFind n s.tracks = Option.none) :
    s.apply_effect n kind params = Except.error (.notFound n) := by
  unfold Studio.apply_effect
  simp only [hf]

/-- Shared helper: the successful reverb branch of apply_effect. -/
theorem apply_effect_reverb_ok {s : Studio} {name : String} {xs : List ℚ}
    (h : assocFind name s.tracks = some xs) (params : EffectParams) :
    s.apply_effect name "reverb" params = Except.ok
      { s with
        tracks := assocPut name
          (EffectsProcessor.add_reverb s.sampleRate xs
            (params.decay.getD (1/2))) s.tracks,
        trackParams := assocMod name
          (fun p => { p with effects := assocPut "reverb" params p.effects })
          s.trackParams } := by
  have e1 : (("reverb" : String) = "reverb") = True := by simp
  unfold Studio.apply_effect
  simp only [h, e1, if_true]

/-- Shared helper: the successful compression branch of apply_effect; the
dispatch never forwards the ratio kwarg, so add_compression always runs
with its default ratio 4.0 and cannot divide by zero. -/
theorem apply_effect_compression_ok {s : Studio} {name : String}
    {xs : List ℚ} (h : assocFind name s.tracks = some xs)
    (params : EffectParams) :
    s.apply_effect name "compression" params = Except.ok
      { s with
        tracks := assocPut name
          (xs.map (fun a =>
            if params.threshold.getD (3/5) < |a| then a * (1/4) else a))
          s.tracks,
        trackParams := assocMod name
          (fun p =>
            { p with effects := assocPut "compression" params p.effects })
          s.trackParams } := by
  have hcs : EffectsProcessor.add_compression xs
      (params.threshold.getD (3/5)) 4 =
      some (xs.map (fun a =>
        if params.threshold.getD (3/5) < |a| then a * (1/4) else a)) := by
    rw [EffectsProcessor.add_compression, if_neg (by norm_num)]
  have e1 : (("compression" : String) = "reverb") = False := by simp
  have e2 : (("compression" : String) = "delay") = False := by simp
  have e3 : (("compression" : String) = "compression") = True := by simp
  unfold Studio.apply_effect
  simp only [h, e1, e2, e3, if_false, if_true, hcs]

/-- Shared helper: apply_effect with an unknown effect kind succeeds and
records the kwargs while leaving the samples unchanged. -/
theorem apply_effect_other_ok {s : Studio} {name : String} {xs : List ℚ}
    (h : assocFind name s.tracks = some xs) (params : EffectParams)
    {kind : String} (h1 : kind ≠ "reverb") (h2 : kind ≠ "delay")
    (h3 : kind ≠ "compression") :
    s.apply_effect name kind params = Except.ok
      { s with
        tracks := assocPut name xs s.tracks,
        trackParams := assocMod name
          (fun p => { p with effects := assocPut kind params p.effects })
          s.trackParams } := by
  have e1 : (kind = "reverb") = False := by simp [h1]
  have e2 : (kind = "delay") = False := by simp [h2]
  have e3 : (kind = "compression") = False := by simp [h3]
  unfold Studio.apply_effect
  simp only [h, e1, e2, e3, if_false]

theorem set_track_pan_ok {s : Studio} {name : String} {xs : List ℚ}
    (h : assocFind name s.tracks = some xs) (v : ℚ) :
    s.set_track_pan name v = Except.ok
      { s with
        trackParams := assocMod name
          (fun p => { p with pan := max (-1) (min 1 v) }) s.trackParams } := by
  unfold Studio.set_track_pan
  simp only [h]

theorem set_track_pan_none {s : Studio} {name : String}
    (hf : assocFind name s.tracks = Option.none) (v : ℚ) :
    s.set_track_pan name v = Except.error (.notFound name) := by
  unfold Studio.set_track_pan
  simp only [hf]

theorem set_track_volume_none {s : Studio} {name : String}
    (hf : assocFind name s.tracks = Option.none) (v : ℚ) :
    s.set_track_volume name v = Except.error (.notFound name) := by
  unfold Studio.set_track_volume
  simp only [hf]

/-- C5: the original claim makes NotFound the only error and ties it to
an unknown name by an iff, but generate_track with an empty note list
raises the np.concatenate ValueError before the name is ever checked, so
an unknown name with empty notes does not raise NotFound.  At the
concrete input below the result is the emptyConcat error, not
NotFound("zzz"). -/
theorem claim_C5_cex :
    Studio.generate_track (fun _ => 0) (initStudio 44100 8) "zzz" [] "sine" ≠
      Except.error (StudioError.notFound "zzz") := by
  intro he
  have h0 : Studio.generate_track (fun _ => 0) (initStudio 44100 8) "zzz" []
      "sine" = Except.error StudioError.emptyConcat := rfl
  rw [h0] at he
  injection he with h2
  cases h2

/-- C5 (amended): recordTrack, setVolume and setPan raise NotFound if and
only if the track name was never initialized; generateTrack does so
provided the note list is nonempty, and with an empty note list raises
the concatenation error before checking the name; applyEffect does so
provided any supplied delay_time is nonnegative (a negative one makes the
delay raise a size error after the name check); on every error the studio
is unchanged (no updated state is produced); muteTrack and unmuteTrack
never raise (they are total functions into Studio) and are identities on
an unknown name. -/
theorem claim_C5 :
    (∀ (s : Studio) (n : String) (a : List ℚ),
      ((∃ s2, s.record_track n a = Except.ok s2) ↔
        (assocFind n s.tracks).isSome = true) ∧
      (∀ e, s.record_track n a = Except.error e → e = .notFound n)) ∧
    (∀ (sw : ℚ → ℚ) (s : Studio) (n : String) (notes : List (ℚ × ℚ))
        (w : String), notes ≠ [] →
      ((∃ s2, Studio.generate_track sw s n notes w = Except.ok s2) ↔
        (assocFind n s.tracks).isSome = true) ∧
      (∀ e, Studio.generate_track sw s n notes w = Except.error e →
        e = .notFound n)) ∧
    (∀ (sw : ℚ → ℚ) (s : Studio) (n w : String),
      Studio.generate_track sw s n [] w =
        Except.error StudioError.emptyConcat) ∧
    (∀ (s : Studio) (n kind : String) (params : EffectParams),
      0 ≤ params.delay_time.getD (1/4) →
      ((∃ s2, s.apply_effect n kind params = Except.ok s2) ↔
        (assocFind n s.tracks).isSome = true) ∧
      (∀ e, s.apply_effect n kind params = Except.error e →
        e = .notFound n)) ∧
    (∀ (s : Studio) (n : String) (v : ℚ),
      ((∃ s2, s.set_track_volume n v = Except.ok s2) ↔
        (assocFind n s.tracks).isSome = true) ∧
      (∀ e, s.set_track_volume n v = Except.error e → e = .notFound n)) ∧
    (∀ (s : Studio) (n : String) (v : ℚ),
      ((∃ s2, s.set_track_pan n v = Except.ok s2) ↔
        (assocFind n s.tracks).isSome = true) ∧
      (∀ e, s.set_track_pan n v = Except.error e → e = .notFound n)) ∧
    (∀ (s : Studio) (n : String),
      assocFind n s.trackParams = Option.none →
      s.mute_track n = s ∧ s.unmute_track n = s) := by
  refine ⟨?_, ?_, ?_, ?_, ?_, ?_, ?_⟩
  · intro s n a
    constructor
    · constructor
      · rintro ⟨s2, hs2⟩
        cases hf : assocFind n s.tracks with
        | none => rw [record_track_none hf] at hs2; cases hs2
        | some xs => rfl
      · intro hsome
        cases hf : assocFind n s.tracks with
        | none => rw [hf] at hsome; cases hsome
        | some xs => exact ⟨_, record_track_some _ hf⟩
    · intro e he
      cases hf : assocFind n s.tracks with
      | none =>
        rw [record_track_none hf] at he
        injection he with h2
        exact h2.symm
      | some xs =>
        rw [record_track_some _ hf] at he
        cases he
  · intro sw s n notes w hne
    cases notes with
    | nil => exact absurd rfl hne
    | cons n0 rest =>
      rw [generate_track_cons]
      constructor
      · constructor
        · rintro ⟨s2, hs2⟩
          cases hf : assocFind n s.tracks with
          | none => rw [record_track_none hf] at hs2; cases hs2
          | some xs => rfl
        · intro hsome
          cases hf : assocFind n s.tracks with
          | none => rw [hf] at hsome; cases hsome
          | some xs => exact ⟨_, record_track_some _ hf⟩
      · intro e he
        cases hf : assocFind n s.tracks with
        | none =>
          rw [record_track_none hf] at he
          injection he with h2
          exact h2.symm
        | some xs =>
          rw [record_track_some _ hf] at he
          cases he
  · intro sw s n w
    rfl
  · intro s n kind params hdt
    have hok : ∀ xs, assocFind n s.tracks = some xs →
        ∃ s2, s.apply_effect n kind params = Except.ok s2 := by
      intro xs hf
      by_cases h1 : kind = "reverb"
      · subst h1
        exact ⟨_, apply_effect_reverb_ok hf params⟩
      by_cases h2 : kind = "delay"
      · subst h2
        exact ⟨_, apply_effect_delay_ok hf params hdt⟩
      by_cases h3 : kind = "compression"
      · subst h3
        exact ⟨_, apply_effect_compression_ok hf params⟩
      · exact ⟨_, apply_effect_other_ok hf params h1 h2 h3⟩
    constructor
    · constructor
      · rintro ⟨s2, hs2⟩
        cases hf : assocFind n s.tracks with
        | none => rw [apply_effect_none hf] at hs2; cases hs2
        | some xs => rfl
      · intro hsome
        cases hf : assocFind n s.tracks with
        | none => rw [hf] at hsome; cases hsome
        | some xs => exact hok xs hf
    · intro e he
      cases hf : assocFind n s.tracks with
      | none =>
        rw [apply_effect_none hf] at he
        injection he with h2
        exact h2.symm
      | some xs =>
        rcases hok xs hf with ⟨s2, hs2⟩
        rw [hs2] at he
        cases he
  · intro s n v
    constructor
    · constructor
      · rintro ⟨s2, hs2⟩
        cases hf : assocFind n s.tracks with
        | none => rw [set_track_volume_none hf] at hs2; cases hs2
        | some xs => rfl
      · intro hsome
        cases hf : assocFind n s.tracks with
        | none => rw [hf] at hsome; cases hsome
        | some xs => exact ⟨_, set_track_volume_ok hf v⟩
    · intro e he
      cases hf : assocFind n s.tracks with
      | none =>
        rw [set_track_volume_none hf] at he
        injection he with h2
        exact h2.symm
      | some xs =>
        rw [set_track_volume_ok hf v] at he
        cases he
  · intro s n v
    constructor
    · constructor
      · rintro ⟨s2, hs2⟩
        cases hf : assocFind n s.tracks with
        | none => rw [set_track_pan_none hf] at hs2; cases hs2
        | some xs => rfl
      · intro hsome
        cases hf : assocFind n s.tracks with
        | none => rw [hf] at hsome; cases hsome
        | some xs => exact ⟨_, set_track_pan_ok hf v⟩
    · intro e he
      cases hf : assocFind n s.tracks with
      | none =>
        rw [set_track_pan_none hf] at he
        injection he with h2
        exact h2.symm
      | some xs =>
        rw [set_track_pan_ok hf v] at he
        cases he
  · intro s n habs
    cases s with
    | mk sr nt tr tp mv =>
      constructor
      · show Studio.mk sr nt tr (assocMod n _ tp) mv = Studio.mk sr nt tr tp mv
        rw [assocMod_of_absent _ habs]
      · show Studio.mk sr nt tr (assocMod n _ tp) mv = Studio.mk sr nt tr tp mv
        rw [assocMod_of_absent _ habs]

theorem claim_C5_wit :
    (((∃ s2, sampleStudio.record_track "track_0" [3] = Except.ok s2) ↔
      (assocFind "track_0" sampleStudio.tracks).isSome = true) ∧
      (∀ e, sampleStudio.record_track "track_0" [3] = Except.error e →
        e = .notFound "track_0")) ∧
    (Studio.generate_track (fun _ => 0) sampleStudio "track_0" [] "sine" =
      Except.error StudioError.emptyConcat) ∧
    (((∃ s2, sampleStudio.apply_effect "nosuch" "delay" EffectParams.none =
        Except.ok s2) ↔
      (assocFind "nosuch" sampleStudio.tracks).isSome = true) ∧
      (∀ e, sampleStudio.apply_effect "nosuch" "delay" EffectParams.none =
          Except.error e → e = .notFound "nosuch")) ∧
    (sampleStudio.mute_track "nosuch" = sampleStudio ∧
      sampleStudio.unmute_track "nosuch" = sampleStudio) :=
  ⟨claim_C5.1 sampleStudio "track_0" [3],
    claim_C5.2.2.1 (fun _ => 0) sampleStudio "track_0" "sine",
    claim_C5.2.2.2.1 sampleStudio "nosuch" "delay" EffectParams.none
      (by norm_num [EffectParams.none]),
    claim_C5.2.2.2.2.2.2 sampleStudio "nosuch" rfl⟩

theorem padTo_length {audio : List ℚ} {n : ℕ} (h : audio.length ≤ n) :
    (padTo audio n).length = n := by
  simp only [padTo, List.length_append, List.length_replicate]
  omega

theorem le_foldlMaxLen (l : List (String × List ℚ)) (m : ℕ) :
    m ≤ l.foldl (fun acc p => max acc p.2.length) m := by
  induction l generalizing m with
  | nil => exact le_refl m
  | cons q rest ih => exact le_trans (le_max_left _ _) (ih _)

theorem mem_le_foldlMaxLen {l : List (String × List ℚ)}
    {p : String × List ℚ} (hp : p ∈ l) (m : ℕ) :
    p.2.length ≤ l.foldl (fun acc q => max acc q.2.length) m := by
  induction l generalizing m with
  | nil => cases hp
  | cons q rest ih =>
    rcases List.mem_cons.mp hp with rfl | hp2
    · exact le_trans (le_max_right m p.2.length) (le_foldlMaxLen rest _)
    · exact ih hp2 _

theorem foldlMaxLen_zeros :
    ∀ l : List (String × List ℚ), (∀ q ∈ l, q.2 = ([] : List ℚ)) →
      l.foldl (fun acc p => max acc p.2.length) 0 = 0 := by
  intro l
  induction l with
  | nil => intro _; rfl
  | cons q rest ih =>
    intro h
    rw [List.foldl_cons, h q (List.mem_cons_self q rest)]
    exact ih (fun p hp => h p (List.mem_cons_of_mem q hp))

theorem monoFold_length (c : String → Bool) (L : ℕ) :
    ∀ l : List (String × List ℚ), (∀ p ∈ l, p.2.length ≤ L) →
      ∀ acc : List ℚ, acc.length = L →
        (l.foldl (fun acc p => if c p.1 then acc
          else List.zipWith (fun a b => a + b) acc (padTo p.2 L))
            acc).length = L := by
  intro l
  induction l with
  | nil => exact fun _ acc hacc => hacc
  | cons q rest ih =>
    intro hall acc hacc
    rw [List.foldl_cons]
    apply ih (fun p hp => hall p (List.mem_cons_of_mem q hp))
    by_cases hq : c q.1
    · rw [if_pos hq]
      exact hacc
    · rw [if_neg hq, List.length_zipWith,
        padTo_length (hall q (List.mem_cons_self q rest)), hacc]
      exact min_self L

theorem foldlMaxLen_put {name : String} {xs ys : List ℚ}
    (hlen : ys.length = xs.length) :
    ∀ (l : List (String × List ℚ)) (m : ℕ), assocFind name l = some xs →
      (assocPut name ys l).foldl (fun acc p => max acc p.2.length) m =
        l.foldl (fun acc p => max acc p.2.length) m := by
  intro l
  induction l with
  | nil => intro m hf; cases hf
  | cons q rest ih =>
    obtain ⟨k, v⟩ := q
    intro m hf
    by_cases hk : k = name
    · subst hk
      rw [assocFind, if_pos rfl] at hf
      injection hf with hv
      subst hv
      simp only [assocPut, ite_true, List.foldl_cons]
      rw [hlen]
    · rw [assocFind, if_neg hk] at hf
      simp only [assocPut, if_neg hk, List.foldl_cons]
      exact ih _ hf

theorem monoFold_put (c : String → Bool) (L : ℕ) (name : String)
    (ys : List ℚ) (hc : c name = true) :
    ∀ (l : List (String × List ℚ)) (acc : List ℚ),
      (assocPut name ys l).foldl
        (fun acc p => if c p.1 then acc
          else List.zipWith (fun a b => a + b) acc (padTo p.2 L)) acc =
      l.foldl
        (fun acc p => if c p.1 then acc
          else List.zipWith (fun a b => a + b) acc (padTo p.2 L)) acc := by
  intro l
  induction l with
  | nil => intro acc; simp [assocPut, hc]
  | cons q rest ih =>
    obtain ⟨k, v⟩ := q
    intro acc
    by_cases hk : k = name
    · subst hk
      simp only [assocPut, ite_true, List.foldl_cons, hc, if_true]
    · simp only [assocPut, if_neg hk, List.foldl_cons]
      exact ih _

theorem monoMix_length (s : Studio) : s.monoMix.length = s.maxLen := by
  unfold Studio.monoMix
  exact monoFold_length _ _ s.tracks (fun p hp => mem_le_foldlMaxLen hp 0) _
    (List.length_replicate _ _)

theorem mix_congr {s1 s2 : Studio} (h1 : s1.maxLen = s2.maxLen)
    (h2 : s1.monoMix = s2.monoMix)
    (h3 : s1.masterVolume = s2.masterVolume) : s1.mix = s2.mix := by
  unfold Studio.mix
  rw [h1, h2, h3]

/-- C1: mix of any studio with at least one nonempty track returns two
identical channels whose length is the maximum track sample length
(muted tracks counted, shorter tracks zero-padded); a muted track
contributes zero to every sample of the pre-normalization mono sum
(replacing its samples by any sequence of the same length changes
neither the sum nor the mix); and when no track has any samples mix
returns the empty output. -/
theorem claim_C1 :
    (∀ s : Studio, s.maxLen ≠ 0 →
      ∃ m, s.mix = [m, m] ∧ m.length = s.maxLen) ∧
    (∀ (s : Studio) (name : String) (p : TrackParams) (xs ys : List ℚ),
      assocFind name s.trackParams = some p → p.muted = true →
      assocFind name s.tracks = some xs → ys.length = xs.length →
      Studio.monoMix { s with tracks := assocPut name ys s.tracks } =
        s.monoMix ∧
      Studio.mix { s with tracks := assocPut name ys s.tracks } = s.mix) ∧
    (∀ s : Studio, (∀ q ∈ s.tracks, q.2 = ([] : List ℚ)) → s.mix = []) := by
  refine ⟨?_, ?_, ?_⟩
  · intro s h
    have hlen : s.monoMix.length = s.maxLen := monoMix_length s
    have hne : s.monoMix ≠ [] := by
      intro hh
      rw [hh] at hlen
      exact h hlen.symm
    rcases normalize_some_of_ne_nil s.monoMix (9/10) hne with ⟨y, hy⟩
    have hylen := normalize_length hy
    refine ⟨y.map (fun v => v * s.masterVolume), ?_, ?_⟩
    · unfold Studio.mix
      rw [if_neg h, hy]
    · rw [List.length_map, hylen, hlen]
  · intro s name p xs ys hp hmut hf hlen
    have hcmut : Studio.getMuted
        { s with tracks := assocPut name ys s.tracks } name = true := by
      unfold Studio.getMuted
      simp only [hp]
      exact hmut
    have hmax : Studio.maxLen { s with tracks := assocPut name ys s.tracks } =
        s.maxLen := by
      unfold Studio.maxLen
      exact foldlMaxLen_put hlen s.tracks 0 hf
    have hmono : Studio.monoMix
        { s with tracks := assocPut name ys s.tracks } = s.monoMix := by
      unfold Studio.monoMix
      rw [hmax]
      exact monoFold_put _ s.maxLen name ys hcmut s.tracks _
    exact ⟨hmono, mix_congr hmax hmono rfl⟩
  · intro s h
    have h0 : s.maxLen = 0 := foldlMaxLen_zeros s.tracks h
    unfold Studio.mix
    rw [if_pos h0]

theorem claim_C1_wit :
    (Studio.maxLen sampleStudio ≠ 0 ∧
      ∃ m, sampleStudio.mix = [m, m] ∧
        m.length = Studio.maxLen sampleStudio) ∧
    (Studio.monoMix
        { sampleStudio with
          tracks := assocPut "track_1" [5, 5, 5] sampleStudio.tracks } =
      sampleStudio.monoMix) ∧
    ((initStudio 44100 2).mix = []) :=
  ⟨⟨by decide, claim_C1.1 sampleStudio (by decide)⟩,
    (claim_C1.2.1 sampleStudio "track_1"
      { muted := true, volume := 1, pan := 0, effects := [] }
      [2, 0, 2] [5, 5, 5] rfl rfl rfl rfl).1,
    claim_C1.2.2 (initStudio 44100 2) (by decide)⟩

theorem linspace_mem_bound {a b x : ℚ} {n : ℕ}
    (hx : x ∈ linspace a b n) : min a b ≤ x ∧ x ≤ max a b := by
  unfold linspace at hx
  split at hx
  · cases hx
  · split at hx
    · rw [List.mem_singleton] at hx
      rw [hx]
      exact ⟨min_le_left a b, le_max_left a b⟩
    · rcases List.mem_map.mp hx with ⟨i, hi, rfl⟩
      rename_i hn0 hn1
      have hn : 2 ≤ n := by omega
      have hi2 : i < n := List.mem_range.mp hi
      have hn1q : (0 : ℚ) < (n : ℚ) - 1 := by
        have h2 : (2 : ℚ) ≤ (n : ℚ) := by exact_mod_cast hn
        linarith
      have ht0 : 0 ≤ (i : ℚ) / ((n : ℚ) - 1) :=
        div_nonneg (by positivity) hn1q.le
      have ht1 : (i : ℚ) / ((n : ℚ) - 1) ≤ 1 := by
        rw [div_le_one hn1q]
        have h3 : ((i + 1 : ℕ) : ℚ) ≤ (n : ℚ) :=
          by exact_mod_cast Nat.succ_le_of_lt hi2
        push_cast at h3
        linarith
      have hv : a + (b - a) * (i : ℚ) / ((n : ℚ) - 1) =
          a + (b - a) * ((i : ℚ) / ((n : ℚ) - 1)) := by
        rw [mul_div_assoc]
      rw [hv]
      set t := (i : ℚ) / ((n : ℚ) - 1) with htdef
      rcases le_total a b with hab | hab
      · rw [min_eq_left hab, max_eq_right hab]
        constructor
        · nlinarith
        · nlinarith
      · rw [min_eq_right hab, max_eq_left hab]
        constructor
        · nlinarith
        · nlinarith

theorem envelopeADSR_default_bound (sampleRate len : ℕ) :
    ∀ e ∈ envelopeADSR defaultParams sampleRate len, 0 ≤ e ∧ e ≤ 1 := by
  intro e he
  unfold envelopeADSR at he
  have he2 := List.take_subset _ _ he
  have hs : defaultParams.sustain = 7/10 := rfl
  rcases List.mem_append.mp he2 with h123 | h4
  · rcases List.mem_append.mp h123 with h12 | h3
    · rcases List.mem_append.mp h12 with h1 | h2
      · have hb := linspace_mem_bound h1
        rw [show min (0 : ℚ) 1 = 0 from by norm_num,
          show max (0 : ℚ) 1 = 1 from by norm_num] at hb
        exact hb
      · have hb := linspace_mem_bound h2
        rw [hs, show min (1 : ℚ) (7/10) = 7/10 from by norm_num,
          show max (1 : ℚ) (7/10) = 1 from by norm_num] at hb
        exact ⟨le_trans (by norm_num) hb.1, hb.2⟩
    · rw [List.eq_of_mem_replicate h3, hs]
      norm_num
  · have hb := linspace_mem_bound h4
    rw [hs, show min (7/10 : ℚ) 0 = 0 from by norm_num,
      show max (7/10 : ℚ) 0 = 7/10 from by norm_num] at hb
    exact ⟨hb.1, le_trans hb.2 (by norm_num)⟩

theorem waveSample_bound {sw : ℚ → ℚ} (hsw : ∀ x, |sw x| ≤ 1)
    {waveform : String} (hw : waveform ≠ "triangle") (x : ℚ) :
    |waveSample sw waveform x| ≤ 1 := by
  unfold waveSample
  split_ifs with h1 h2 h3
  · exact hsw x
  · unfold npSign
    split_ifs <;> norm_num
  · have hle : ((⌊x + 1/2⌋ : ℤ) : ℚ) ≤ x + 1/2 := Int.floor_le _
    have hgt : x + 1/2 < (⌊x + 1/2⌋ : ℤ) + 1 := Int.lt_floor_add_one _
    rw [abs_le]
    constructor <;> linarith
  · exact hsw x

theorem zipWith_scaled_bound :
    ∀ (l1 l2 : List ℚ), (∀ a ∈ l1, |a| ≤ 1) → (∀ e ∈ l2, 0 ≤ e ∧ e ≤ 1) →
      ∀ z ∈ List.zipWith (fun s e => s * e * (3/10)) l1 l2, |z| ≤ 3/10 := by
  intro l1
  induction l1 with
  | nil =>
    intro l2 _ _ z hz
    cases hz
  | cons a l ih =>
    intro l2 h1 h2 z hz
    cases l2 with
    | nil => cases hz
    | cons e l2t =>
      rcases List.mem_cons.mp hz with rfl | hz2
      · have ha := h1 a (List.mem_cons_self _ _)
        have he := h2 e (List.mem_cons_self _ _)
        have he1 : |e| ≤ 1 := by
          rw [abs_of_nonneg he.1]
          exact he.2
        rw [abs_mul, abs_mul, show |(3/10 : ℚ)| = 3/10 from by norm_num]
        calc |a| * |e| * (3/10) ≤ 1 * 1 * (3/10) := by
              apply mul_le_mul_of_nonneg_right _ (by norm_num)
              exact mul_le_mul ha he1 (abs_nonneg e) (by norm_num)
          _ = 3/10 := by norm_num
      · exact ih l2t (fun v hv => h1 v (List.mem_cons_of_mem _ hv))
          (fun v hv => h2 v (List.mem_cons_of_mem _ hv)) z hz2

/-- Shared helper: with the default envelope parameters and any waveform
other than triangle, every sample of a synthesized note has absolute
value at most the headroom factor 0.3. -/
theorem synthesize_note_bound {sw : ℚ → ℚ} (hsw : ∀ x, |sw x| ≤ 1)
    (sampleRate : ℕ) (f d : ℚ) {waveform : String}
    (hw : waveform ≠ "triangle") :
    ∀ z ∈ synthesize_note sw defaultParams sampleRate f d waveform,
      |z| ≤ 3/10 := by
  intro z hz
  refine zipWith_scaled_bound _ _ ?_ ?_ z hz
  · intro a ha
    rcases List.mem_map.mp ha with ⟨t, _, rfl⟩
    exact waveSample_bound hsw hw _
  · exact envelopeADSR_default_bound sampleRate _

/-- C6: the claim asserts every synthesized sample is waveform in [-1,1]
times envelope in [0,1] times 0.3, hence at most 0.3 in magnitude, but
the source's triangle formula 4*|x - floor(x + 0.75) - 0.5| - 1 is not
bounded by 1: at sampleRate 4, frequency 1, duration 1 the sample at
index 1 (phase 0.25) has raw value 4 and final value 1.2 > 0.3. -/
theorem claim_C6_cex :
    ¬ (∀ z ∈ synthesize_note (fun _ => 0) defaultParams 4 1 1 "triangle",
        |z| ≤ 3/10) := by
  intro h
  have heq : synthesize_note (fun _ => 0) defaultParams 4 1 1 "triangle" =
      [0, 6/5, 63/100, 21/50] := by
    norm_num [synthesize_note, envelopeADSR, defaultParams, linspace,
      waveSample, npSign, pyInt, List.range_succ, Function.comp,
      Int.toNat_ofNat, List.replicate, List.take, List.zipWith,
      String.reduceEq]
    norm_num [show (("triangle" : String) = "sine") = False from by simp,
      show (("triangle" : String) = "square") = False from by simp,
      show (("triangle" : String) = "sawtooth") = False from by simp,
      show |(5/4 : ℚ)| = 5/4 from abs_of_pos (by norm_num),
      show |(3/4 : ℚ)| = 3/4 from abs_of_pos (by norm_num)]
  have hmem : (6/5 : ℚ) ∈ synthesize_note (fun _ => 0) defaultParams 4 1 1
      "triangle" := by
    rw [heq]
    simp
  have hb := h _ hmem
  rw [abs_of_pos (by norm_num : (0 : ℚ) < 6/5)] at hb
  norm_num at hb

/-- C6 (amended): for the sine, square and sawtooth waveforms (and the
unknown-name sine fallback) every synthesized sample has absolute value
at most 0.3 (waveform in [-1,1] times envelope in [0,1] times the 0.3
headroom factor); the triangle formula exceeds 1 in magnitude so its
samples can exceed 0.3.  The concrete scenario holds: in a studio at
sampleRate 44100, generateTrack("track_0", [(440, 1.0)], "sine") stores
44100 samples all of magnitude at most 0.3. -/
theorem claim_C6 (sw : ℚ → ℚ) (hsw : ∀ x, |sw x| ≤ 1) :
    (∀ (sampleRate : ℕ) (f d : ℚ) (waveform : String),
      waveform ≠ "triangle" →
      ∀ z ∈ synthesize_note sw defaultParams sampleRate f d waveform,
        |z| ≤ 3/10) ∧
    (∃ s2, Studio.generate_track sw (initStudio 44100 8) "track_0"
        [((440 : ℚ), (1 : ℚ))] "sine" = Except.ok s2 ∧
      ∃ l, assocFind "track_0" s2.tracks = some l ∧
        l.length = 44100 ∧ ∀ z ∈ l, |z| ≤ 3/10) := by
  constructor
  · intro sampleRate f d waveform hw
    exact synthesize_note_bound hsw sampleRate f d hw
  · have hf0 : assocFind "track_0" (initStudio 44100 8).tracks =
        some [] := rfl
    have haudio : ([((440 : ℚ), (1 : ℚ))].map (fun nd =>
        synthesize_note sw defaultParams
          (initStudio 44100 8).sampleRate nd.1 nd.2 "sine")).join =
        synthesize_note sw defaultParams 44100 440 1 "sine" ++ [] := rfl
    have hrec := record_track_some
      (([((440 : ℚ), (1 : ℚ))].map (fun nd =>
        synthesize_note sw defaultParams
          (initStudio 44100 8).sampleRate nd.1 nd.2 "sine")).join) hf0
    refine ⟨_, Eq.trans ?_ hrec, ?_⟩
    · rw [generate_track_cons]
    · refine ⟨_, assocFind_put_self _ _ _, ?_, ?_⟩
      · rw [haudio, List.append_nil, synthesize_note_length]
        norm_num [pyInt]
        rfl
      · intro z hz
        rw [haudio, List.append_nil] at hz
        exact synthesize_note_bound hsw 44100 440 1 (by simp) z hz

theorem claim_C6_wit :
    (∀ x : ℚ, |(fun _ : ℚ => (0 : ℚ)) x| ≤ 1) ∧
    (∃ s2, Studio.generate_track (fun _ => (0 : ℚ)) (initStudio 44100 8)
        "track_0" [((440 : ℚ), (1 : ℚ))] "sine" = Except.ok s2 ∧
      ∃ l, assocFind "track_0" s2.tracks = some l ∧
        l.length = 44100 ∧ ∀ z ∈ l, |z| ≤ 3/10) :=
  ⟨fun x => by norm_num,
    (claim_C6 (fun _ => 0) (fun x => by norm_num)).2⟩
